import Mathlib

/-!
Verification of the `token-memory-ttl` in-memory token store
(`src/index.ts`, class `MemoryTokenStore`).

The store is modelled shallowly:
* a JS `Map<string, V>` becomes an association list `List (String × V)`
  (`JsMap` below), with `get` / `set` / `erase` / `has` mirroring
  `Map.get` / `Map.set` / `Map.delete` / `Map.has`;
* `Date.now()` becomes an explicit `now : Int` argument threaded through
  each operation (all `Date.now()` calls inside one synchronous operation
  are modelled by the single `now` of that operation);
* a `NodeJS.Timeout` handle becomes a `Timeout` value recording the time
  at which `setTimeout` was called and the requested delay; the body of
  the `setTimeout` callback in `scheduleExpiry` is the pure step function
  `timerCallback`, and an ideal firing of the pending timer for a key
  (exactly `delay` ms after scheduling) is `fireStep`;
* `async` methods are pure functions from a store state (plus `now`) to
  a result and the new store state; `throw` in `set` is an
  `Except.error` returned together with the unchanged state.
-/

set_option linter.unusedVariables false

namespace TokenMemoryTtl

/-! ## Association-list model of a JS `Map` with string keys -/

namespace JsMap

/-- `Map.get k`: the value of the first binding of `k`, if any. -/
def get {α : Type} (l : List (String × α)) (k : String) : Option α :=
  (l.find? (fun p => p.1 == k)).map Prod.snd

/-- `Map.has k`. -/
def has {α : Type} (l : List (String × α)) (k : String) : Bool :=
  l.any (fun p => p.1 == k)

/-- `Map.delete k` (state effect only): remove the binding of `k`. -/
def erase {α : Type} (l : List (String × α)) (k : String) : List (String × α) :=
  l.filter (fun p => !(p.1 == k))

/-- `Map.set k v`: overwrite the binding of `k` in place, or append a new one. -/
def set {α : Type} (l : List (String × α)) (k : String) (v : α) : List (String × α) :=
  if has l k then l.map (fun p => if p.1 == k then (k, v) else p) else l ++ [(k, v)]

end JsMap

/-! ## Data model (`TokenRecord`, timer handles, store state) -/

/-- `TokenRecord` from src/index.ts. Timestamps are milliseconds since epoch. -/
structure TokenRecord where
  token : String
  expiresAt : Int
  createdAt : Int
deriving Repr, DecidableEq

/-- Model of a `NodeJS.Timeout` handle: when `setTimeout` was called and
the delay it was given. The callback itself is `timerCallback` below,
determined by the key it closes over. -/
structure Timeout where
  scheduledAt : Int
  delay : Int
deriving Repr, DecidableEq

/-- `TokenStoreOptions`: every field optional. -/
structure TokenStoreOptions where
  maxSize : Option Int := none
  defaultTtl : Option Int := none
  debug : Option Bool := none

/-- `TokenStats` from src/index.ts. -/
structure TokenStats where
  size : Nat
  pendingCleanups : Nat
  memoryUsage : Nat
deriving Repr, DecidableEq

/-- The state of a `MemoryTokenStore`: the two private maps plus the
resolved options. -/
structure Store where
  map : List (String × TokenRecord)
  timers : List (String × Timeout)
  maxSize : Int
  defaultTtl : Int
  debug : Bool
deriving Repr, DecidableEq

/-- `Number.MAX_SAFE_INTEGER`. -/
def NUMBER_MAX_SAFE_INTEGER : Int := 9007199254740991

/-- JS `x || d` on an optional number: `undefined`, and the falsy value
`0`, both fall back to the default (this is the constructor's merge). -/
def jsOrInt (x : Option Int) (d : Int) : Int :=
  match x with
  | none => d
  | some v => if v = 0 then d else v

/-- JS `x || d` on an optional boolean. -/
def jsOrBool (x : Option Bool) (d : Bool) : Bool :=
  match x with
  | none => d
  | some v => if v = false then d else v

/-- `new MemoryTokenStore(options)`. -/
def mkStore (options : TokenStoreOptions) : Store :=
  { map := []
    timers := []
    maxSize := jsOrInt options.maxSize NUMBER_MAX_SAFE_INTEGER
    defaultTtl := jsOrInt options.defaultTtl 3600
    debug := jsOrBool options.debug false }

/-- `MAX_TIMEOUT_MS = 0x7fffffff` from `scheduleExpiry`. -/
def MAX_TIMEOUT_MS : Int := 2147483647

/-! ## `scheduleExpiry` and the timer callback -/

/-- `scheduleExpiry(key, expiresAt)` (src/index.ts lines 62-99) run at
time `now`: cancel any existing handle, and either reclaim immediately
(`remaining <= 0`) or install a fresh one-shot timer for
`min(remaining, MAX_TIMEOUT_MS)`.  The `clearTimeout` of the previous
handle is reflected by that handle's entry being replaced or removed. -/
def scheduleExpiry (s : Store) (key : String) (expiresAt : Int) (now : Int) : Store :=
  let remaining := expiresAt - now
  if remaining ≤ 0 then
    { s with map := JsMap.erase s.map key, timers := JsMap.erase s.timers key }
  else
    let delay := min remaining MAX_TIMEOUT_MS
    { s with timers := JsMap.set s.timers key ⟨now, delay⟩ }

/-- The body of the `setTimeout` callback installed by `scheduleExpiry`
(src/index.ts lines 78-93), running at time `now2`: re-read the record;
if gone, drop the stale handle; if truly expired, reclaim; otherwise
schedule the next segment against the authoritative `expiresAt`. -/
def timerCallback (s : Store) (key : String) (now2 : Int) : Store :=
  match JsMap.get s.map key with
  | none => { s with timers := JsMap.erase s.timers key }
  | some r =>
    if r.expiresAt ≤ now2 then
      { s with map := JsMap.erase s.map key, timers := JsMap.erase s.timers key }
    else
      scheduleExpiry s key r.expiresAt now2

/-- One ideal firing of the pending timer for `key`: the callback runs
exactly `delay` ms after it was scheduled. No-op when no timer is
pending. -/
def fireStep (s : Store) (key : String) : Store :=
  match JsMap.get s.timers key with
  | none => s
  | some h => timerCallback s key (h.scheduledAt + h.delay)

/-- `n` successive ideal firings of `key`'s pending timer. -/
def iterFire (s : Store) (key : String) : Nat → Store
  | 0 => s
  | n + 1 => iterFire (fireStep s key) key n

/-! ## CRUD surface -/

/-- `set(key, token, ttlSeconds?)` at time `now`.  `ttlSeconds ?? defaultTtl`
is nullish coalescing, hence `Option.getD`.  The capacity check happens
before any mutation, so the thrown error leaves the state unchanged. -/
def Store.set (s : Store) (key tok : String) (ttlSeconds : Option Int) (now : Int) :
    Except String Unit × Store :=
  let ttl := ttlSeconds.getD s.defaultTtl
  let expiresAt := now + ttl * 1000
  if JsMap.has s.map key = false ∧ (s.map.length : Int) ≥ s.maxSize then
    (Except.error ("Token store size limit exceeded (" ++ toString s.maxSize ++ ")"), s)
  else
    let s1 := { s with map := JsMap.set s.map key ⟨tok, expiresAt, now⟩ }
    (Except.ok (), scheduleExpiry s1 key expiresAt now)

/-- `delete(key)`: remove the record and cancel-and-remove the timer. -/
def Store.delete (s : Store) (key : String) : Bool × Store :=
  (JsMap.has s.map key,
   { s with map := JsMap.erase s.map key, timers := JsMap.erase s.timers key })

/-- `get(key)` at time `now`. -/
def Store.get (s : Store) (key : String) (now : Int) : Option String × Store :=
  match JsMap.get s.map key with
  | none => (none, s)
  | some r =>
    if r.expiresAt ≤ now then (none, (s.delete key).2)
    else (some r.token, s)

/-- `has(key)` at time `now`. -/
def Store.has (s : Store) (key : String) (now : Int) : Bool × Store :=
  match JsMap.get s.map key with
  | none => (false, s)
  | some r =>
    if r.expiresAt ≤ now then (false, (s.delete key).2)
    else (true, s)

/-- `getMetadata(key)` at time `now`; the result is the
`(expiresAt, createdAt)` pair (`Omit<TokenRecord, 'token'>`). -/
def Store.getMetadata (s : Store) (key : String) (now : Int) :
    Option (Int × Int) × Store :=
  match JsMap.get s.map key with
  | none => (none, s)
  | some r =>
    if r.expiresAt ≤ now then (none, (s.delete key).2)
    else (some (r.expiresAt, r.createdAt), s)

/-- `Math.ceil(remaining / 1000)` on a nonnegative integer number of
milliseconds (`getTtl`'s rounding). -/
def ceilDiv1000 (remaining : Int) : Int := (remaining + 999) / 1000

/-- `getTtl(key)` at time `now`. -/
def Store.getTtl (s : Store) (key : String) (now : Int) : Option Int × Store :=
  match JsMap.get s.map key with
  | none => (none, s)
  | some r =>
    let remaining := max 0 (r.expiresAt - now)
    if remaining = 0 then (none, (s.delete key).2)
    else (some (ceilDiv1000 remaining), s)

/-- `updateTtl(key, ttlSeconds)` at time `now`. -/
def Store.updateTtl (s : Store) (key : String) (ttlSeconds : Int) (now : Int) :
    Bool × Store :=
  match JsMap.get s.map key with
  | none => (false, s)
  | some r =>
    let newExpiresAt := now + ttlSeconds * 1000
    let s1 := { s with map := JsMap.set s.map key { r with expiresAt := newExpiresAt } }
    (true, scheduleExpiry s1 key newExpiresAt now)

/-- `clear()`: cancel every timer and empty both maps. -/
def Store.clear (s : Store) : Store :=
  { s with map := [], timers := [] }

/-- The loop body of `keys()`: iterate over the entries snapshot, keep
live keys, `delete` expired ones as a side effect. -/
def keysLoop (entries : List (String × TokenRecord)) (now : Int) (s : Store) :
    List String × Store :=
  match entries with
  | [] => ([], s)
  | (k, r) :: rest =>
    if r.expiresAt > now then
      let res := keysLoop rest now s
      (k :: res.1, res.2)
    else
      keysLoop rest now (s.delete k).2

/-- `keys()` at time `now`. -/
def Store.keys (s : Store) (now : Int) : List String × Store :=
  keysLoop s.map now s

/-- `getStats()` (read-only). -/
def Store.getStats (s : Store) : TokenStats :=
  { size := s.map.length
    pendingCleanups := s.timers.length
    memoryUsage := s.map.foldl (fun acc p => acc + p.2.token.length * 2 + 32) 0 }

/-- Domains of the two maps coincide: every key with a record has a live
timer handle and vice versa. -/
def domEq (s : Store) : Prop :=
  ∀ k, (JsMap.get s.map k).isSome = (JsMap.get s.timers k).isSome

/-! ## Basic lemmas about the `JsMap` model -/

theorem JsMap.get_nil {α : Type} (k : String) :
    JsMap.get ([] : List (String × α)) k = none := rfl

theorem JsMap.get_cons {α : Type} (p : String × α) (t : List (String × α)) (k : String) :
    JsMap.get (p :: t) k = if p.1 = k then some p.2 else JsMap.get t k := by
  rcases p with ⟨a, b⟩
  unfold JsMap.get
  by_cases hp : a = k
  · subst hp
    simp [List.find?]
  · simp [List.find?, beq_eq_false_iff_ne.mpr hp, hp]

theorem JsMap.has_nil {α : Type} (k : String) :
    JsMap.has ([] : List (String × α)) k = false := rfl

theorem JsMap.has_cons {α : Type} (p : String × α) (t : List (String × α)) (k : String) :
    JsMap.has (p :: t) k = if p.1 = k then true else JsMap.has t k := by
  by_cases hp : p.1 = k
  · simp [JsMap.has, hp]
  · simp [JsMap.has, hp]

theorem JsMap.erase_nil {α : Type} (k : String) :
    JsMap.erase ([] : List (String × α)) k = [] := rfl

theorem JsMap.erase_cons {α : Type} (p : String × α) (t : List (String × α)) (k : String) :
    JsMap.erase (p :: t) k =
      if p.1 = k then JsMap.erase t k else p :: JsMap.erase t k := by
  by_cases hp : p.1 = k
  · simp [JsMap.erase, hp]
  · simp [JsMap.erase, hp]

theorem JsMap.get_erase_self {α : Type} (l : List (String × α)) (k : String) :
    JsMap.get (JsMap.erase l k) k = none := by
  induction l with
  | nil => rfl
  | cons p t ih =>
    rw [JsMap.erase_cons]
    by_cases hp : p.1 = k
    · rw [if_pos hp]; exact ih
    · rw [if_neg hp, JsMap.get_cons, if_neg hp]; exact ih

theorem JsMap.get_erase_ne {α : Type} (l : List (String × α)) (k k' : String)
    (h : k' ≠ k) :
    JsMap.get (JsMap.erase l k) k' = JsMap.get l k' := by
  induction l with
  | nil => rfl
  | cons p t ih =>
    rw [JsMap.erase_cons]
    by_cases hp : p.1 = k
    · have hpk : p.1 ≠ k' := by rw [hp]; exact fun e => h e.symm
      rw [if_pos hp, JsMap.get_cons, if_neg hpk]; exact ih
    · rw [if_neg hp, JsMap.get_cons, JsMap.get_cons]
      by_cases hq : p.1 = k'
      · rw [if_pos hq, if_pos hq]
      · rw [if_neg hq, if_neg hq]; exact ih

theorem JsMap.get_mapUpdate_self {α : Type} (l : List (String × α)) (k : String) (v : α)
    (h : JsMap.has l k = true) :
    JsMap.get (l.map fun p => if p.1 == k then (k, v) else p) k = some v := by
  induction l with
  | nil => simp [JsMap.has] at h
  | cons p t ih =>
    rw [List.map_cons, JsMap.get_cons]
    by_cases hp : p.1 = k
    · have hp' : (p.1 == k) = true := beq_iff_eq.mpr hp
      simp [hp']
    · have hp' : (p.1 == k) = false := beq_eq_false_iff_ne.mpr hp
      rw [JsMap.has_cons, if_neg hp] at h
      simp only [hp', if_false, Bool.false_eq_true]
      rw [if_neg hp]
      exact ih h

theorem JsMap.get_mapUpdate_ne {α : Type} (l : List (String × α)) (k k' : String) (v : α)
    (h : k' ≠ k) :
    JsMap.get (l.map fun p => if p.1 == k then (k, v) else p) k' = JsMap.get l k' := by
  induction l with
  | nil => rfl
  | cons p t ih =>
    rw [List.map_cons, JsMap.get_cons, JsMap.get_cons]
    by_cases hp : p.1 = k
    · have hp' : (p.1 == k) = true := beq_iff_eq.mpr hp
      have hpk : p.1 ≠ k' := by rw [hp]; exact fun e => h e.symm
      have hkk : k ≠ k' := fun e => h e.symm
      simp only [hp', if_true]
      rw [if_neg hkk, if_neg hpk]
      exact ih
    · have hp' : (p.1 == k) = false := beq_eq_false_iff_ne.mpr hp
      simp only [hp', Bool.false_eq_true, if_false]
      by_cases hq : p.1 = k'
      · rw [if_pos hq, if_pos hq]
      · rw [if_neg hq, if_neg hq]; exact ih

theorem JsMap.get_append_single_self {α : Type} (l : List (String × α)) (k : String) (v : α)
    (h : JsMap.has l k = false) :
    JsMap.get (l ++ [(k, v)]) k = some v := by
  induction l with
  | nil => rw [List.nil_append, JsMap.get_cons]; simp
  | cons p t ih =>
    rw [JsMap.has_cons] at h
    by_cases hp : p.1 = k
    · rw [if_pos hp] at h; exact absurd h (by simp)
    · rw [if_neg hp] at h
      rw [List.cons_append, JsMap.get_cons, if_neg hp]
      exact ih h

theorem JsMap.get_append_single_ne {α : Type} (l : List (String × α)) (k k' : String) (v : α)
    (h : k' ≠ k) :
    JsMap.get (l ++ [(k, v)]) k' = JsMap.get l k' := by
  induction l with
  | nil =>
    show JsMap.get [(k, v)] k' = JsMap.get [] k'
    rw [JsMap.get_cons]
    exact if_neg (fun e => h e.symm)
  | cons p t ih =>
    rw [List.cons_append, JsMap.get_cons, JsMap.get_cons]
    by_cases hq : p.1 = k'
    · rw [if_pos hq, if_pos hq]
    · rw [if_neg hq, if_neg hq]; exact ih

theorem JsMap.get_set_self {α : Type} (l : List (String × α)) (k : String) (v : α) :
    JsMap.get (JsMap.set l k v) k = some v := by
  unfold JsMap.set
  by_cases h : JsMap.has l k = true
  · rw [if_pos h]; exact JsMap.get_mapUpdate_self l k v h
  · have h' : JsMap.has l k = false := by revert h; cases JsMap.has l k <;> simp
    rw [if_neg (by simp [h'])]
    exact JsMap.get_append_single_self l k v h'

theorem JsMap.get_set_ne {α : Type} (l : List (String × α)) (k k' : String) (v : α)
    (h : k' ≠ k) :
    JsMap.get (JsMap.set l k v) k' = JsMap.get l k' := by
  unfold JsMap.set
  by_cases hh : JsMap.has l k = true
  · rw [if_pos hh]; exact JsMap.get_mapUpdate_ne l k k' v h
  · have h' : JsMap.has l k = false := by revert hh; cases JsMap.has l k <;> simp
    rw [if_neg (by simp [h'])]
    exact JsMap.get_append_single_ne l k k' v h

theorem JsMap.has_eq_isSome {α : Type} (l : List (String × α)) (k : String) :
    JsMap.has l k = (JsMap.get l k).isSome := by
  induction l with
  | nil => rfl
  | cons p t ih =>
    rw [JsMap.has_cons, JsMap.get_cons]
    by_cases hp : p.1 = k
    · rw [if_pos hp, if_pos hp]; rfl
    · rw [if_neg hp, if_neg hp]; exact ih

theorem JsMap.get_mem {α : Type} (l : List (String × α)) (k : String) (v : α)
    (h : JsMap.get l k = some v) : (k, v) ∈ l := by
  induction l with
  | nil => simp [JsMap.get] at h
  | cons p t ih =>
    rw [JsMap.get_cons] at h
    by_cases hp : p.1 = k
    · rw [if_pos hp] at h
      have hv : p.2 = v := Option.some.inj h
      have : p = (k, v) := by
        cases p with
        | mk a b => simp at hp hv; rw [hp, hv]
      rw [← this]
      exact List.mem_cons_self p t
    · rw [if_neg hp] at h
      exact List.mem_cons_of_mem _ (ih h)

theorem JsMap.isSome_set_self {α : Type} (l : List (String × α)) (k : String) (v : α) :
    (JsMap.get (JsMap.set l k v) k).isSome = true := by
  rw [JsMap.get_set_self]; rfl

theorem JsMap.mem_eq_of_nodup {α : Type} (l : List (String × α)) (k : String) (a b : α)
    (hnd : (l.map Prod.fst).Nodup) (ha : (k, a) ∈ l) (hb : (k, b) ∈ l) : a = b := by
  induction l with
  | nil => simp at ha
  | cons p t ih =>
    rw [List.map_cons, List.nodup_cons] at hnd
    rcases List.mem_cons.mp ha with ha1 | ha1 <;> rcases List.mem_cons.mp hb with hb1 | hb1
    · have hpq : (k, a) = (k, b) := ha1.trans hb1.symm
      exact (Prod.ext_iff.mp hpq).2
    · exfalso
      apply hnd.1
      rw [← ha1]
      exact List.mem_map.mpr ⟨(k, b), hb1, rfl⟩
    · exfalso
      apply hnd.1
      rw [← hb1]
      exact List.mem_map.mpr ⟨(k, a), ha1, rfl⟩
    · exact ih hnd.2 ha1 hb1

/-! ## Shape lemmas for `scheduleExpiry`, `delete`, and the timer chain -/

theorem scheduleExpiry_of_nonpos (s : Store) (key : String) (e now : Int)
    (h : e - now ≤ 0) :
    scheduleExpiry s key e now =
      { s with map := JsMap.erase s.map key, timers := JsMap.erase s.timers key } := by
  simp only [scheduleExpiry]
  rw [if_pos h]

theorem scheduleExpiry_of_pos (s : Store) (key : String) (e now : Int)
    (h : 0 < e - now) :
    scheduleExpiry s key e now =
      { s with timers := JsMap.set s.timers key ⟨now, min (e - now) MAX_TIMEOUT_MS⟩ } := by
  simp only [scheduleExpiry]
  rw [if_neg (not_le.mpr h)]

theorem timerCallback_of_none (s : Store) (key : String) (now2 : Int)
    (h : JsMap.get s.map key = none) :
    timerCallback s key now2 = { s with timers := JsMap.erase s.timers key } := by
  unfold timerCallback
  rw [h]

theorem timerCallback_of_some (s : Store) (key : String) (now2 : Int) (r : TokenRecord)
    (h : JsMap.get s.map key = some r) :
    timerCallback s key now2 =
      if r.expiresAt ≤ now2 then
        { s with map := JsMap.erase s.map key, timers := JsMap.erase s.timers key }
      else scheduleExpiry s key r.expiresAt now2 := by
  unfold timerCallback
  rw [h]

theorem deleteState_map_self (s : Store) (k : String) :
    JsMap.get (s.delete k).2.map k = none :=
  JsMap.get_erase_self s.map k

theorem deleteState_timers_self (s : Store) (k : String) :
    JsMap.get (s.delete k).2.timers k = none :=
  JsMap.get_erase_self s.timers k

theorem deleteState_map_ne (s : Store) (k k' : String) (h : k' ≠ k) :
    JsMap.get (s.delete k).2.map k' = JsMap.get s.map k' :=
  JsMap.get_erase_ne s.map k k' h

theorem deleteState_timers_ne (s : Store) (k k' : String) (h : k' ≠ k) :
    JsMap.get (s.delete k).2.timers k' = JsMap.get s.timers k' :=
  JsMap.get_erase_ne s.timers k k' h

theorem domEq_deleteState (s : Store) (k : String) (h : domEq s) :
    domEq (s.delete k).2 := by
  intro k'
  by_cases hk : k' = k
  · subst hk
    rw [deleteState_map_self, deleteState_timers_self]
    rfl
  · rw [deleteState_map_ne s k k' hk, deleteState_timers_ne s k k' hk]
    exact h k'

theorem domEq_scheduleExpiry (s : Store) (key : String) (e now : Int)
    (hs : ∀ k', k' ≠ key → (JsMap.get s.map k').isSome = (JsMap.get s.timers k').isSome)
    (hkey : (JsMap.get s.map key).isSome = true) :
    domEq (scheduleExpiry s key e now) := by
  by_cases h : e - now ≤ 0
  · rw [scheduleExpiry_of_nonpos s key e now h]
    intro k'
    by_cases hk : k' = key
    · subst hk
      show (JsMap.get (JsMap.erase s.map k') k').isSome
        = (JsMap.get (JsMap.erase s.timers k') k').isSome
      rw [JsMap.get_erase_self, JsMap.get_erase_self]
      rfl
    · show (JsMap.get (JsMap.erase s.map key) k').isSome
        = (JsMap.get (JsMap.erase s.timers key) k').isSome
      rw [JsMap.get_erase_ne s.map key k' hk, JsMap.get_erase_ne s.timers key k' hk]
      exact hs k' hk
  · rw [scheduleExpiry_of_pos s key e now (by omega)]
    intro k'
    by_cases hk : k' = key
    · subst hk
      show (JsMap.get s.map k').isSome
        = (JsMap.get (JsMap.set s.timers k' _) k').isSome
      rw [JsMap.get_set_self, hkey]
      rfl
    · show (JsMap.get s.map k').isSome
        = (JsMap.get (JsMap.set s.timers key _) k').isSome
      rw [JsMap.get_set_ne s.timers key k' _ hk]
      exact hs k' hk

/-! ## Segment counting for the timer chain -/

/-- Number of timer segments needed to cover `remaining` milliseconds:
`ceil(remaining / MAX_TIMEOUT_MS)`, written with the literal
`2147483647 = MAX_TIMEOUT_MS` (see `segCount_eq_ceil`). -/
def segCount (remaining : Int) : Nat :=
  (remaining.toNat + 2147483646) / 2147483647

theorem segCount_pos (R : Int) (h : 0 < R) : 1 ≤ segCount R := by
  simp only [segCount]
  omega

theorem segCount_sub (R : Int) (h : MAX_TIMEOUT_MS < R) :
    segCount (R - MAX_TIMEOUT_MS) + 1 = segCount R := by
  simp only [segCount, MAX_TIMEOUT_MS] at h ⊢
  omega

theorem iterFire_of_no_timer (s : Store) (key : String) (n : Nat)
    (h : JsMap.get s.timers key = none) : iterFire s key n = s := by
  induction n with
  | zero => rfl
  | succ m ih =>
    show iterFire (fireStep s key) key m = s
    have hstep : fireStep s key = s := by
      unfold fireStep
      rw [h]
    rw [hstep]
    exact ih

theorem iterFire_reclaims (n : Nat) :
    ∀ (s : Store) (key : String) (r : TokenRecord) (t0 : Int),
    JsMap.get s.map key = some r →
    JsMap.get s.timers key = some ⟨t0, min (r.expiresAt - t0) MAX_TIMEOUT_MS⟩ →
    0 < r.expiresAt - t0 →
    segCount (r.expiresAt - t0) = n →
    JsMap.get (iterFire s key n).map key = none ∧
    JsMap.get (iterFire s key n).timers key = none := by
  induction n with
  | zero =>
    intro s key r t0 hmap htimer hR hseg
    exact absurd (hseg ▸ segCount_pos _ hR) (by omega)
  | succ m ih =>
    intro s key r t0 hmap htimer hR hseg
    show JsMap.get (iterFire (fireStep s key) key m).map key = none ∧
         JsMap.get (iterFire (fireStep s key) key m).timers key = none
    have hstep : fireStep s key = timerCallback s key
        (t0 + min (r.expiresAt - t0) MAX_TIMEOUT_MS) := by
      unfold fireStep
      rw [htimer]
    by_cases hc : r.expiresAt - t0 ≤ MAX_TIMEOUT_MS
    · -- final segment: the callback fires at the true deadline and reclaims
      have hmin : min (r.expiresAt - t0) MAX_TIMEOUT_MS = r.expiresAt - t0 :=
        min_eq_left hc
      have hfire : fireStep s key =
          { s with map := JsMap.erase s.map key, timers := JsMap.erase s.timers key } := by
        rw [hstep, hmin, timerCallback_of_some s key (t0 + (r.expiresAt - t0)) r hmap,
          if_pos (by omega)]
      rw [hfire]
      have hgone : JsMap.get (JsMap.erase s.timers key) key = none :=
        JsMap.get_erase_self s.timers key
      rw [iterFire_of_no_timer _ _ _ hgone]
      exact ⟨JsMap.get_erase_self s.map key, hgone⟩
    · -- intermediate segment: the callback reschedules against `expiresAt`
      have hmin : min (r.expiresAt - t0) MAX_TIMEOUT_MS = MAX_TIMEOUT_MS :=
        min_eq_right (by omega)
      have hpos : 0 < r.expiresAt - (t0 + MAX_TIMEOUT_MS) := by omega
      have hsched : fireStep s key =
          { s with timers := JsMap.set s.timers key (Timeout.mk (t0 + MAX_TIMEOUT_MS) (min (r.expiresAt - (t0 + MAX_TIMEOUT_MS)) MAX_TIMEOUT_MS)) } := by
        rw [hstep, hmin, timerCallback_of_some s key (t0 + MAX_TIMEOUT_MS) r hmap,
          if_neg (by omega), scheduleExpiry_of_pos s key r.expiresAt (t0 + MAX_TIMEOUT_MS) hpos]
      rw [hsched]
      refine ih _ key r (t0 + MAX_TIMEOUT_MS) hmap (JsMap.get_set_self _ _ _) hpos ?_
      have he : r.expiresAt - (t0 + MAX_TIMEOUT_MS) = (r.expiresAt - t0) - MAX_TIMEOUT_MS := by
        ring
      rw [he]
      have hsub := segCount_sub (r.expiresAt - t0) (by omega)
      omega

/-! ## Ceiling arithmetic used by `getTtl` and segment counting -/

theorem ceilDiv1000_eq_ceil (a : Int) :
    (ceilDiv1000 a : ℚ) = ⌈(a : ℚ) / 1000⌉ := by
  have h3 : a ≤ 1000 * ((a + 999) / 1000) := by omega
  have h4 : 1000 * ((a + 999) / 1000) - 1000 < a := by omega
  have hc : ⌈(a : ℚ) / 1000⌉ = (a + 999) / 1000 := by
    rw [Int.ceil_eq_iff]
    refine ⟨?_, ?_⟩
    · rw [lt_div_iff₀ (by norm_num : (0:ℚ) < 1000)]
      have hcast : ((1000 * ((a + 999) / 1000) - 1000 : Int) : ℚ) < (a : ℚ) := by
        exact_mod_cast h4
      push_cast at hcast ⊢
      linarith
    · rw [div_le_iff₀ (by norm_num : (0:ℚ) < 1000)]
      have hcast : ((a : Int) : ℚ) ≤ ((1000 * ((a + 999) / 1000) : Int) : ℚ) := by
        exact_mod_cast h3
      push_cast at hcast ⊢
      linarith
  rw [hc]
  rfl

theorem segCount_eq_ceil (R : Int) (h : 0 < R) :
    (segCount R : Int) = ⌈(R : ℚ) / MAX_TIMEOUT_MS⌉ := by
  have hseg : (segCount R : Int) = (R + 2147483646) / 2147483647 := by
    simp only [segCount]
    omega
  have h3 : R ≤ 2147483647 * ((R + 2147483646) / 2147483647) := by omega
  have h4 : 2147483647 * ((R + 2147483646) / 2147483647) - 2147483647 < R := by omega
  have hc : ⌈(R : ℚ) / MAX_TIMEOUT_MS⌉ = (R + 2147483646) / 2147483647 := by
    have hM : ((MAX_TIMEOUT_MS : Int) : ℚ) = (2147483647 : ℚ) := by
      simp [MAX_TIMEOUT_MS]
    rw [Int.ceil_eq_iff]
    refine ⟨?_, ?_⟩
    · rw [hM, lt_div_iff₀ (by norm_num : (0:ℚ) < 2147483647)]
      have hcast : ((2147483647 * ((R + 2147483646) / 2147483647) - 2147483647 : Int) : ℚ)
          < (R : ℚ) := by exact_mod_cast h4
      push_cast at hcast ⊢
      linarith
    · rw [hM, div_le_iff₀ (by norm_num : (0:ℚ) < 2147483647)]
      have hcast : ((R : Int) : ℚ)
          ≤ ((2147483647 * ((R + 2147483646) / 2147483647) : Int) : ℚ) := by
        exact_mod_cast h3
      push_cast at hcast ⊢
      linarith
  rw [hc, hseg]

/-! ## Reduction lemmas for the CRUD operations -/

theorem setOp_of_capacity (s : Store) (key tok : String) (ttl : Option Int) (now : Int)
    (h : JsMap.has s.map key = false ∧ (s.map.length : Int) ≥ s.maxSize) :
    s.set key tok ttl now =
      (Except.error ("Token store size limit exceeded (" ++ toString s.maxSize ++ ")"), s) := by
  simp only [Store.set]
  rw [if_pos h]

theorem setOp_of_ok (s : Store) (key tok : String) (ttl : Option Int) (now : Int)
    (h : ¬(JsMap.has s.map key = false ∧ (s.map.length : Int) ≥ s.maxSize)) :
    s.set key tok ttl now =
      (Except.ok (),
        scheduleExpiry { s with map := JsMap.set s.map key (TokenRecord.mk tok (now + (ttl.getD s.defaultTtl) * 1000) now) } key (now + (ttl.getD s.defaultTtl) * 1000) now) := by
  simp only [Store.set]
  rw [if_neg h]

theorem getOp_of_none (s : Store) (key : String) (now : Int)
    (h : JsMap.get s.map key = none) : s.get key now = (none, s) := by
  unfold Store.get
  rw [h]

theorem getOp_of_some (s : Store) (key : String) (now : Int) (r : TokenRecord)
    (h : JsMap.get s.map key = some r) :
    s.get key now =
      if r.expiresAt ≤ now then (none, (s.delete key).2) else (some r.token, s) := by
  unfold Store.get
  rw [h]

theorem hasOp_of_none (s : Store) (key : String) (now : Int)
    (h : JsMap.get s.map key = none) : s.has key now = (false, s) := by
  unfold Store.has
  rw [h]

theorem hasOp_of_some (s : Store) (key : String) (now : Int) (r : TokenRecord)
    (h : JsMap.get s.map key = some r) :
    s.has key now =
      if r.expiresAt ≤ now then (false, (s.delete key).2) else (true, s) := by
  unfold Store.has
  rw [h]

theorem getMetadataOp_of_none (s : Store) (key : String) (now : Int)
    (h : JsMap.get s.map key = none) : s.getMetadata key now = (none, s) := by
  unfold Store.getMetadata
  rw [h]

theorem getMetadataOp_of_some (s : Store) (key : String) (now : Int) (r : TokenRecord)
    (h : JsMap.get s.map key = some r) :
    s.getMetadata key now =
      if r.expiresAt ≤ now then (none, (s.delete key).2)
      else (some (r.expiresAt, r.createdAt), s) := by
  unfold Store.getMetadata
  rw [h]

theorem getTtlOp_of_none (s : Store) (key : String) (now : Int)
    (h : JsMap.get s.map key = none) : s.getTtl key now = (none, s) := by
  unfold Store.getTtl
  rw [h]

theorem getTtlOp_of_some (s : Store) (key : String) (now : Int) (r : TokenRecord)
    (h : JsMap.get s.map key = some r) :
    s.getTtl key now =
      if max 0 (r.expiresAt - now) = 0 then (none, (s.delete key).2)
      else (some (ceilDiv1000 (max 0 (r.expiresAt - now))), s) := by
  unfold Store.getTtl
  rw [h]

theorem updateTtlOp_of_none (s : Store) (key : String) (t now : Int)
    (h : JsMap.get s.map key = none) : s.updateTtl key t now = (false, s) := by
  unfold Store.updateTtl
  rw [h]

theorem updateTtlOp_of_some (s : Store) (key : String) (t now : Int) (r : TokenRecord)
    (h : JsMap.get s.map key = some r) :
    s.updateTtl key t now =
      (true,
        scheduleExpiry { s with map := JsMap.set s.map key (TokenRecord.mk r.token (now + t * 1000) r.createdAt) } key (now + t * 1000) now) := by
  unfold Store.updateTtl
  rw [h]

/-! ## Lemmas about the `keys()` loop -/

theorem JsMap.get_erase_of_none {α : Type} (l : List (String × α)) (k k' : String)
    (h : JsMap.get l k' = none) : JsMap.get (JsMap.erase l k) k' = none := by
  by_cases hk : k' = k
  · subst hk
    exact JsMap.get_erase_self l k'
  · rw [JsMap.get_erase_ne l k k' hk]
    exact h

theorem keysLoop_preserves_none (now : Int) (key : String) :
    ∀ (entries : List (String × TokenRecord)) (s : Store),
    JsMap.get s.map key = none → JsMap.get s.timers key = none →
    JsMap.get (keysLoop entries now s).2.map key = none ∧
    JsMap.get (keysLoop entries now s).2.timers key = none := by
  intro entries
  induction entries with
  | nil => intro s h1 h2; exact ⟨h1, h2⟩
  | cons p rest ih =>
    intro s h1 h2
    rcases p with ⟨k, r⟩
    by_cases hv : r.expiresAt > now
    · rw [show keysLoop ((k, r) :: rest) now s
          = ((k :: (keysLoop rest now s).1, (keysLoop rest now s).2) : List String × Store)
        from by simp [keysLoop, hv]]
      exact ih s h1 h2
    · rw [show keysLoop ((k, r) :: rest) now s = keysLoop rest now (s.delete k).2
        from by simp [keysLoop, hv]]
      exact ih (s.delete k).2 (JsMap.get_erase_of_none s.map k key h1)
        (JsMap.get_erase_of_none s.timers k key h2)

theorem keysLoop_mem_keys (now : Int) (k0 : String) :
    ∀ (entries : List (String × TokenRecord)) (s : Store),
    k0 ∈ (keysLoop entries now s).1 → k0 ∈ entries.map Prod.fst := by
  intro entries
  induction entries with
  | nil => intro s h; exact absurd h (by simp [keysLoop])
  | cons p rest ih =>
    intro s h
    rcases p with ⟨k, r⟩
    rw [List.map_cons]
    by_cases hv : r.expiresAt > now
    · rw [show keysLoop ((k, r) :: rest) now s
          = ((k :: (keysLoop rest now s).1, (keysLoop rest now s).2) : List String × Store)
        from by simp [keysLoop, hv]] at h
      rcases List.mem_cons.mp h with h1 | h1
      · exact List.mem_cons.mpr (Or.inl h1)
      · exact List.mem_cons.mpr (Or.inr (ih s h1))
    · rw [show keysLoop ((k, r) :: rest) now s = keysLoop rest now (s.delete k).2
        from by simp [keysLoop, hv]] at h
      exact List.mem_cons.mpr (Or.inr (ih (s.delete k).2 h))

theorem keysLoop_expired_gone (now : Int) (key : String) (r : TokenRecord)
    (hexp : r.expiresAt ≤ now) :
    ∀ (entries : List (String × TokenRecord)) (s : Store),
    (entries.map Prod.fst).Nodup →
    (key, r) ∈ entries →
    key ∉ (keysLoop entries now s).1 ∧
    JsMap.get (keysLoop entries now s).2.map key = none ∧
    JsMap.get (keysLoop entries now s).2.timers key = none := by
  intro entries
  induction entries with
  | nil => intro s hnd hmem; exact absurd hmem (by simp)
  | cons p rest ih =>
    intro s hnd hmem
    rcases p with ⟨k, r'⟩
    rw [List.map_cons, List.nodup_cons] at hnd
    rcases List.mem_cons.mp hmem with hm | hm
    · -- head entry is `key`'s: it is expired, so the loop deletes it
      have hk : key = k := congrArg Prod.fst hm
      have hr : r = r' := congrArg Prod.snd hm
      subst hk
      subst hr
      have hnv : ¬ r.expiresAt > now := not_lt.mpr hexp
      rw [show keysLoop ((key, r) :: rest) now s = keysLoop rest now (s.delete key).2
        from by simp [keysLoop, hnv]]
      have hmap0 : JsMap.get (s.delete key).2.map key = none := deleteState_map_self s key
      have htim0 : JsMap.get (s.delete key).2.timers key = none := deleteState_timers_self s key
      have hpres := keysLoop_preserves_none now key rest (s.delete key).2 hmap0 htim0
      exact ⟨fun hin => hnd.1 (keysLoop_mem_keys now key rest (s.delete key).2 hin),
        hpres.1, hpres.2⟩
    · -- `key`'s entry is further down; the head key differs from `key`
      have hne : k ≠ key := by
        intro he
        exact hnd.1 (he ▸ List.mem_map.mpr ⟨(key, r), hm, he ▸ rfl⟩)
      by_cases hv : r'.expiresAt > now
      · rw [show keysLoop ((k, r') :: rest) now s
            = ((k :: (keysLoop rest now s).1, (keysLoop rest now s).2) : List String × Store)
          from by simp [keysLoop, hv]]
        have hrest := ih s hnd.2 hm
        exact ⟨fun hin => by
          rcases List.mem_cons.mp hin with h1 | h1
          · exact hne h1.symm
          · exact hrest.1 h1, hrest.2.1, hrest.2.2⟩
      · rw [show keysLoop ((k, r') :: rest) now s = keysLoop rest now (s.delete k).2
          from by simp [keysLoop, hv]]
        exact ih (s.delete k).2 hnd.2 hm

theorem keysLoop_domEq (now : Int) :
    ∀ (entries : List (String × TokenRecord)) (s : Store),
    domEq s → domEq (keysLoop entries now s).2 := by
  intro entries
  induction entries with
  | nil => intro s h; exact h
  | cons p rest ih =>
    intro s h
    rcases p with ⟨k, r⟩
    by_cases hv : r.expiresAt > now
    · rw [show keysLoop ((k, r) :: rest) now s
          = ((k :: (keysLoop rest now s).1, (keysLoop rest now s).2) : List String × Store)
        from by simp [keysLoop, hv]]
      exact ih s h
    · rw [show keysLoop ((k, r) :: rest) now s = keysLoop rest now (s.delete k).2
        from by simp [keysLoop, hv]]
      exact ih (s.delete k).2 (domEq_deleteState s k h)

theorem fstPair {α β : Type} (a : α) (b : β) : (Prod.mk a b).1 = a := rfl

theorem sndPair {α β : Type} (a : α) (b : β) : (Prod.mk a b).2 = b := rfl

/-! ## The claims -/

/-- C10: the constructor merges options with JS `||` (falsy coalescing):
`maxSize = 0` yields the `Number.MAX_SAFE_INTEGER` cap (so a fresh store
accepts any insert rather than rejecting every one), and `defaultTtl = 0`
yields the default of 3600 seconds (an omitted ttl then expires
`3600 * 1000` ms after `now`). -/
theorem C10_constructor_falsy_merge :
    (mkStore { maxSize := some 0, defaultTtl := none, debug := none }).maxSize
      = NUMBER_MAX_SAFE_INTEGER ∧
    (mkStore { maxSize := none, defaultTtl := some 0, debug := none }).defaultTtl = 3600 ∧
    (∀ (k v : String) (t : Option Int) (now : Int),
      ((mkStore { maxSize := some 0, defaultTtl := none, debug := none }).set k v t now).1
        = Except.ok ()) ∧
    (∀ (k v : String) (now : Int),
      JsMap.get ((mkStore { maxSize := none, defaultTtl := some 0, debug := none }).set k v none now).2.map k
        = some (TokenRecord.mk v (now + 3600 * 1000) now)) := by
  refine ⟨by decide, by decide, ?_, ?_⟩
  · intro k v t now
    have hcap : ¬(JsMap.has (mkStore { maxSize := some 0, defaultTtl := none, debug := none }).map k = false ∧
        ((mkStore { maxSize := some 0, defaultTtl := none, debug := none }).map.length : Int)
          ≥ (mkStore { maxSize := some 0, defaultTtl := none, debug := none }).maxSize) := by
      intro hc
      exact absurd hc.2 (by decide)
    rw [setOp_of_ok _ k v t now hcap, fstPair]
  · intro k v now
    have hcap : ¬(JsMap.has (mkStore { maxSize := none, defaultTtl := some 0, debug := none }).map k = false ∧
        ((mkStore { maxSize := none, defaultTtl := some 0, debug := none }).map.length : Int)
          ≥ (mkStore { maxSize := none, defaultTtl := some 0, debug := none }).maxSize) := by
      intro hc
      exact absurd hc.2 (by decide)
    rw [setOp_of_ok _ k v none now hcap, sndPair]
    simp only [Option.getD_none]
    have hd : (mkStore { maxSize := none, defaultTtl := some 0, debug := none }).defaultTtl
        = 3600 := by decide
    rw [hd]
    have hpos : (0:Int) < (now + 3600 * 1000) - now := by omega
    rw [scheduleExpiry_of_pos _ _ _ _ hpos]
    dsimp only
    exact JsMap.get_set_self _ k (TokenRecord.mk v (now + 3600 * 1000) now)

/-- C5: `set` raises the capacity error exactly when the key is new and
the map has reached `maxSize`; an overwrite never raises; and a raised
error leaves the store state unchanged (the check precedes all
mutation). -/
theorem C5_capacity_error :
    ∀ (s : Store) (k v : String) (t : Option Int) (now : Int),
    ((s.set k v t now).1
        = Except.error ("Token store size limit exceeded (" ++ toString s.maxSize ++ ")")
      ↔ (JsMap.has s.map k = false ∧ s.maxSize ≤ (s.map.length : Int))) ∧
    (JsMap.has s.map k = true → (s.set k v t now).1 = Except.ok ()) ∧
    (∀ e, (s.set k v t now).1 = Except.error e → (s.set k v t now).2 = s) := by
  intro s k v t now
  by_cases hc : JsMap.has s.map k = false ∧ (s.map.length : Int) ≥ s.maxSize
  · rw [setOp_of_capacity s k v t now hc]
    refine ⟨⟨fun _ => ⟨hc.1, hc.2⟩, fun _ => rfl⟩, ?_, ?_⟩
    · intro hk
      rw [hc.1] at hk
      exact absurd hk (by decide)
    · intro e _
      rfl
  · rw [setOp_of_ok s k v t now hc]
    refine ⟨⟨fun he => absurd he (by simp), fun hme => absurd ⟨hme.1, hme.2⟩ hc⟩,
      fun _ => rfl, fun e he => absurd he (by simp)⟩

/-- C5 witness: in a store at capacity (`maxSize = 1`) holding `"k"`,
inserting the fresh key `"j"` raises the capacity error, while
overwriting the existing key `"k"` succeeds. -/
theorem C5_capacity_error_witness :
    (((Store.mk [("k", TokenRecord.mk "v" 1000 0)] [("k", Timeout.mk 0 1000)] 1 3600 false).set "j" "w" (some 5) 3).1
      = Except.error ("Token store size limit exceeded (" ++ toString (1 : Int) ++ ")")) ∧
    (((Store.mk [("k", TokenRecord.mk "v" 1000 0)] [("k", Timeout.mk 0 1000)] 1 3600 false).set "k" "w" (some 5) 3).1
      = Except.ok ()) :=
  ⟨(C5_capacity_error (Store.mk [("k", TokenRecord.mk "v" 1000 0)] [("k", Timeout.mk 0 1000)] 1 3600 false) "j" "w" (some 5) 3).1.mpr (by decide),
   (C5_capacity_error (Store.mk [("k", TokenRecord.mk "v" 1000 0)] [("k", Timeout.mk 0 1000)] 1 3600 false) "k" "w" (some 5) 3).2.1 (by decide)⟩

/-- C4: `get` returns the stored token exactly when a live record exists
(`expiresAt > now`) and `none` otherwise — absence is a value, not an
error (`Store.get` is total and returns an `Option`) — and a successful
`set` with a positive ttl followed immediately by `get` returns the
token. -/
theorem C4_get_roundtrip :
    (∀ (s : Store) (key : String) (now : Int) (r : TokenRecord),
      JsMap.get s.map key = some r → now < r.expiresAt →
      (s.get key now).1 = some r.token) ∧
    (∀ (s : Store) (key : String) (now : Int) (r : TokenRecord),
      JsMap.get s.map key = some r → r.expiresAt ≤ now →
      (s.get key now).1 = none) ∧
    (∀ (s : Store) (key : String) (now : Int),
      JsMap.get s.map key = none → (s.get key now).1 = none) ∧
    (∀ (s : Store) (k v : String) (t now : Int),
      0 < t → (s.set k v (some t) now).1 = Except.ok () →
      (((s.set k v (some t) now).2).get k now).1 = some v) := by
  refine ⟨?_, ?_, ?_, ?_⟩
  · intro s key now r hr hlive
    rw [getOp_of_some s key now r hr, if_neg (not_le.mpr hlive), fstPair]
  · intro s key now r hr hexp
    rw [getOp_of_some s key now r hr, if_pos hexp, fstPair]
  · intro s key now h
    rw [getOp_of_none s key now h, fstPair]
  · intro s k v t now ht hok
    by_cases hc : JsMap.has s.map k = false ∧ (s.map.length : Int) ≥ s.maxSize
    · rw [setOp_of_capacity s k v (some t) now hc, fstPair] at hok
      exact absurd hok (by simp)
    · rw [setOp_of_ok s k v (some t) now hc, sndPair]
      simp only [Option.getD_some]
      have hpos : (0:Int) < (now + t * 1000) - now := by omega
      rw [scheduleExpiry_of_pos _ _ _ _ hpos]
      rw [getOp_of_some _ k now (TokenRecord.mk v (now + t * 1000) now)
        (JsMap.get_set_self s.map k _)]
      rw [if_neg (by omega : ¬(now + t * 1000 ≤ now)), fstPair]

/-- C4 witness: on the empty default store, `set "k" "v" 7` at time 0
succeeds and an immediate `get` returns `"v"`; the expired and absent
branches are exercised on concrete one-entry stores. -/
theorem C4_get_roundtrip_witness :
    ((((mkStore { maxSize := none, defaultTtl := none, debug := none }).set "k" "v" (some 7) 0).2).get "k" 0).1 = some "v" ∧
    ((Store.mk [("k", TokenRecord.mk "v" 10 0)] [("k", Timeout.mk 0 10)] 1 3600 false).get "k" 50).1 = none :=
  ⟨C4_get_roundtrip.2.2.2 (mkStore { maxSize := none, defaultTtl := none, debug := none })
      "k" "v" 7 0 (by decide) (by rfl),
   C4_get_roundtrip.2.1 (Store.mk [("k", TokenRecord.mk "v" 10 0)] [("k", Timeout.mk 0 10)] 1 3600 false)
      "k" 50 (TokenRecord.mk "v" 10 0) (by decide) (by decide)⟩

/-- C9: a zero or negative lifetime is reclaimed immediately with no
timer left behind: `set` (when the capacity check passes, i.e. the key
exists or the map is below `maxSize`) completes with `ok` yet leaves the
key absent from both maps, and `updateTtl` on a present key returns
`true` yet likewise leaves the key absent from both maps, because
`scheduleExpiry` deletes the record whenever `expiresAt - now <= 0`. -/
theorem C9_nonpositive_lifetime_reclaimed :
    (∀ (s : Store) (k v : String) (t now : Int),
      t ≤ 0 →
      (JsMap.has s.map k = true ∨ (s.map.length : Int) < s.maxSize) →
      (s.set k v (some t) now).1 = Except.ok () ∧
      JsMap.get (s.set k v (some t) now).2.map k = none ∧
      JsMap.get (s.set k v (some t) now).2.timers k = none) ∧
    (∀ (s : Store) (k : String) (t now : Int) (r : TokenRecord),
      JsMap.get s.map k = some r → t ≤ 0 →
      (s.updateTtl k t now).1 = true ∧
      JsMap.get (s.updateTtl k t now).2.map k = none ∧
      JsMap.get (s.updateTtl k t now).2.timers k = none) := by
  constructor
  · intro s k v t now ht hcap
    have hc : ¬(JsMap.has s.map k = false ∧ (s.map.length : Int) ≥ s.maxSize) := by
      intro hc
      rcases hcap with h1 | h1
      · rw [h1] at hc
        exact absurd hc.1 (by decide)
      · omega
    rw [setOp_of_ok s k v (some t) now hc, fstPair, sndPair]
    simp only [Option.getD_some]
    have hnp : (now + t * 1000) - now ≤ 0 := by omega
    rw [scheduleExpiry_of_nonpos _ _ _ _ hnp]
    exact ⟨by trivial, JsMap.get_erase_self _ k, JsMap.get_erase_self _ k⟩
  · intro s k t now r hr ht
    rw [updateTtlOp_of_some s k t now r hr, fstPair, sndPair]
    have hnp : (now + t * 1000) - now ≤ 0 := by omega
    rw [scheduleExpiry_of_nonpos _ _ _ _ hnp]
    exact ⟨by trivial, JsMap.get_erase_self _ k, JsMap.get_erase_self _ k⟩

/-- C9 witness: `set "k" "v" 0` on the empty default store succeeds and
leaves `"k"` absent; `updateTtl "k" (-5)` on a store holding `"k"`
returns `true` and removes it from both maps. -/
theorem C9_nonpositive_lifetime_reclaimed_witness :
    ((mkStore { maxSize := none, defaultTtl := none, debug := none }).set "k" "v" (some 0) 100).1 = Except.ok () ∧
    JsMap.get ((mkStore { maxSize := none, defaultTtl := none, debug := none }).set "k" "v" (some 0) 100).2.map "k" = none ∧
    (((Store.mk [("k", TokenRecord.mk "v" 1000 0)] [("k", Timeout.mk 0 1000)] 1 3600 false).updateTtl "k" (-5) 100).1 = true ∧
      JsMap.get ((Store.mk [("k", TokenRecord.mk "v" 1000 0)] [("k", Timeout.mk 0 1000)] 1 3600 false).updateTtl "k" (-5) 100).2.timers "k" = none) :=
  ⟨(C9_nonpositive_lifetime_reclaimed.1 (mkStore { maxSize := none, defaultTtl := none, debug := none })
      "k" "v" 0 100 (by decide) (Or.inr (by decide))).1,
   (C9_nonpositive_lifetime_reclaimed.1 (mkStore { maxSize := none, defaultTtl := none, debug := none })
      "k" "v" 0 100 (by decide) (Or.inr (by decide))).2.1,
   (C9_nonpositive_lifetime_reclaimed.2 (Store.mk [("k", TokenRecord.mk "v" 1000 0)] [("k", Timeout.mk 0 1000)] 1 3600 false)
      "k" (-5) 100 (TokenRecord.mk "v" 1000 0) (by decide) (by decide)).1,
   (C9_nonpositive_lifetime_reclaimed.2 (Store.mk [("k", TokenRecord.mk "v" 1000 0)] [("k", Timeout.mk 0 1000)] 1 3600 false)
      "k" (-5) 100 (TokenRecord.mk "v" 1000 0) (by decide) (by decide)).2.2⟩

/-- C6: `getTtl` returns the ceiling of `(expiresAt - now) / 1000` whole
seconds (a nonnegative value) whenever the remaining time is positive,
leaving the store untouched; for an absent key it returns `none` without
side effects; for an expired record it returns `none` and destroys the
record and its timer handle.  `ceilDiv1000` is `Math.ceil` on the
nonnegative millisecond remainder, and equals the exact rational ceiling. -/
theorem C6_getTtl_ceiling :
    ∀ (s : Store) (key : String) (now : Int),
    (∀ r : TokenRecord, JsMap.get s.map key = some r → 0 < r.expiresAt - now →
      (s.getTtl key now).1 = some (ceilDiv1000 (r.expiresAt - now)) ∧
      ((ceilDiv1000 (r.expiresAt - now) : Int) : ℚ) = ⌈((r.expiresAt - now : Int) : ℚ) / 1000⌉ ∧
      0 ≤ ceilDiv1000 (r.expiresAt - now) ∧
      (s.getTtl key now).2 = s) ∧
    (JsMap.get s.map key = none → s.getTtl key now = (none, s)) ∧
    (∀ r : TokenRecord, JsMap.get s.map key = some r → r.expiresAt - now ≤ 0 →
      (s.getTtl key now).1 = none ∧
      JsMap.get (s.getTtl key now).2.map key = none ∧
      JsMap.get (s.getTtl key now).2.timers key = none) := by
  intro s key now
  refine ⟨?_, ?_, ?_⟩
  · intro r hr hpos
    have hmax : max 0 (r.expiresAt - now) = r.expiresAt - now := max_eq_right (le_of_lt hpos)
    have hne : ¬(max 0 (r.expiresAt - now) = 0) := by omega
    rw [getTtlOp_of_some s key now r hr, if_neg hne, hmax]
    exact ⟨fstPair _ _, ceilDiv1000_eq_ceil (r.expiresAt - now),
      by simp only [ceilDiv1000]; omega, sndPair _ _⟩
  · intro h
    rw [getTtlOp_of_none s key now h]
  · intro r hr hnp
    have hmax : max 0 (r.expiresAt - now) = 0 := by omega
    rw [getTtlOp_of_some s key now r hr, if_pos hmax]
    exact ⟨fstPair _ _, by rw [sndPair]; exact deleteState_map_self s key,
      by rw [sndPair]; exact deleteState_timers_self s key⟩

/-- C6 witness: a record with 10500 ms left reports `ceilDiv1000 10500
= 11` seconds with the store untouched, and an expired record reports
`none` with the record destroyed. -/
theorem C6_getTtl_ceiling_witness :
    ((Store.mk [("k", TokenRecord.mk "v" 10500 0)] [("k", Timeout.mk 0 10500)] 1 3600 false).getTtl "k" 0).1
      = some (ceilDiv1000 (10500 - 0)) ∧
    ((Store.mk [("k", TokenRecord.mk "v" 10 0)] [("k", Timeout.mk 0 10)] 1 3600 false).getTtl "k" 50).1
      = none :=
  ⟨((C6_getTtl_ceiling (Store.mk [("k", TokenRecord.mk "v" 10500 0)] [("k", Timeout.mk 0 10500)] 1 3600 false) "k" 0).1
      (TokenRecord.mk "v" 10500 0) (by decide) (by decide)).1,
   ((C6_getTtl_ceiling (Store.mk [("k", TokenRecord.mk "v" 10 0)] [("k", Timeout.mk 0 10)] 1 3600 false) "k" 50).2.2
      (TokenRecord.mk "v" 10 0) (by decide) (by decide)).1⟩

/-- C7 counterexample: the claim asserts that `updateTtl` on a present
key always returns `true` and *replaces the record's `expiresAt` with
`now + t * 1000`*.  At `t = 0` the code instead reclaims the record
immediately: on a store holding `"k"`, `updateTtl "k" 0` at time 500
returns `true` but afterwards `"k"` has no record at all, so the claim
as stated is false at this input. -/
theorem C7_counterexample :
    ((Store.mk [("k", TokenRecord.mk "v" 1000000 0)] [("k", Timeout.mk 0 1000000)] 1 3600 false).updateTtl "k" 0 500).1 = true ∧
    JsMap.get ((Store.mk [("k", TokenRecord.mk "v" 1000000 0)] [("k", Timeout.mk 0 1000000)] 1 3600 false).updateTtl "k" 0 500).2.map "k" = none := by
  decide

/-- C7 (amended): `updateTtl` on an absent key returns `false` and
changes nothing; on a present key with a *positive* new lifetime it
returns `true`, replaces the record's `expiresAt` with `now + t * 1000`
while preserving its token and `createdAt` and leaving every other key's
record and timer handle unchanged (with `t <= 0` the record is instead
reclaimed at once, see C9); and after `set k v 60` then
`updateTtl k 120`, `getTtl k` within the next 5 seconds lies in
`(115, 120]`. -/
theorem C7_updateTtl_frame :
    (∀ (s : Store) (k : String) (t now : Int),
      JsMap.get s.map k = none → s.updateTtl k t now = (false, s)) ∧
    (∀ (s : Store) (k : String) (t now : Int) (r : TokenRecord),
      JsMap.get s.map k = some r → 0 < t →
      (s.updateTtl k t now).1 = true ∧
      JsMap.get (s.updateTtl k t now).2.map k
        = some (TokenRecord.mk r.token (now + t * 1000) r.createdAt) ∧
      (∀ k', k' ≠ k →
        JsMap.get (s.updateTtl k t now).2.map k' = JsMap.get s.map k' ∧
        JsMap.get (s.updateTtl k t now).2.timers k' = JsMap.get s.timers k')) ∧
    (∀ (s : Store) (k v : String) (n0 n1 n2 : Int),
      (s.set k v (some 60) n0).1 = Except.ok () →
      n1 ≤ n2 → n2 < n1 + 5000 →
      ∃ c, (((s.set k v (some 60) n0).2.updateTtl k 120 n1).2.getTtl k n2).1 = some c ∧
        115 < c ∧ c ≤ 120) := by
  refine ⟨?_, ?_, ?_⟩
  · intro s k t now h
    exact updateTtlOp_of_none s k t now h
  · intro s k t now r hr ht
    rw [updateTtlOp_of_some s k t now r hr, fstPair, sndPair]
    have hpos : (0:Int) < (now + t * 1000) - now := by omega
    rw [scheduleExpiry_of_pos _ _ _ _ hpos]
    dsimp only
    refine ⟨by trivial, JsMap.get_set_self s.map k _, ?_⟩
    intro k' hk'
    exact ⟨JsMap.get_set_ne s.map k k' _ hk', JsMap.get_set_ne s.timers k k' _ hk'⟩
  · intro s k v n0 n1 n2 hok h12 h25
    have hc : ¬(JsMap.has s.map k = false ∧ (s.map.length : Int) ≥ s.maxSize) := by
      intro hcc
      rw [setOp_of_capacity s k v (some 60) n0 hcc, fstPair] at hok
      exact absurd hok (by simp)
    have hm1 : JsMap.get (s.set k v (some 60) n0).2.map k
        = some (TokenRecord.mk v (n0 + 60 * 1000) n0) := by
      rw [setOp_of_ok s k v (some 60) n0 hc, sndPair]
      simp only [Option.getD_some]
      have hpos : (0:Int) < (n0 + 60 * 1000) - n0 := by omega
      rw [scheduleExpiry_of_pos _ _ _ _ hpos]
      dsimp only
      exact JsMap.get_set_self s.map k _
    have hm2 : JsMap.get ((s.set k v (some 60) n0).2.updateTtl k 120 n1).2.map k
        = some (TokenRecord.mk v (n1 + 120 * 1000) n0) := by
      rw [updateTtlOp_of_some _ k 120 n1 _ hm1, sndPair]
      have hpos : (0:Int) < (n1 + 120 * 1000) - n1 := by omega
      rw [scheduleExpiry_of_pos _ _ _ _ hpos]
      dsimp only
      exact JsMap.get_set_self _ k _
    have hrem : 0 < (n1 + 120 * 1000) - n2 := by omega
    have hmax : max 0 ((n1 + 120 * 1000) - n2) = (n1 + 120 * 1000) - n2 :=
      max_eq_right (le_of_lt hrem)
    have hne : ¬(max 0 ((n1 + 120 * 1000) - n2) = 0) := by omega
    refine ⟨ceilDiv1000 ((n1 + 120 * 1000) - n2), ?_, ?_, ?_⟩
    · rw [getTtlOp_of_some _ k n2 (TokenRecord.mk v (n1 + 120 * 1000) n0) hm2]
      dsimp only
      rw [if_neg hne, hmax, fstPair]
    · simp only [ceilDiv1000]
      omega
    · simp only [ceilDiv1000]
      omega

/-- C7 witness: on a store holding `"k"` with 1000000 ms left,
`updateTtl "k" 7` at time 100 returns `true` and rebinds the record to
expire at `100 + 7000`; and the concrete `set`/`updateTtl`/`getTtl`
sequence at times 0 / 10 / 20 reports a remaining lifetime in
`(115, 120]`. -/
theorem C7_updateTtl_frame_witness :
    (((Store.mk [("k", TokenRecord.mk "v" 1000000 0)] [("k", Timeout.mk 0 1000000)] 1 3600 false).updateTtl "k" 7 100).1 = true ∧
      JsMap.get ((Store.mk [("k", TokenRecord.mk "v" 1000000 0)] [("k", Timeout.mk 0 1000000)] 1 3600 false).updateTtl "k" 7 100).2.map "k"
        = some (TokenRecord.mk "v" (100 + 7 * 1000) 0)) ∧
    (∃ c, ((((mkStore { maxSize := none, defaultTtl := none, debug := none }).set "k" "v" (some 60) 0).2.updateTtl "k" 120 10).2.getTtl "k" 20).1 = some c ∧
      115 < c ∧ c ≤ 120) :=
  ⟨⟨(C7_updateTtl_frame.2.1 (Store.mk [("k", TokenRecord.mk "v" 1000000 0)] [("k", Timeout.mk 0 1000000)] 1 3600 false)
        "k" 7 100 (TokenRecord.mk "v" 1000000 0) (by decide) (by decide)).1,
    (C7_updateTtl_frame.2.1 (Store.mk [("k", TokenRecord.mk "v" 1000000 0)] [("k", Timeout.mk 0 1000000)] 1 3600 false)
        "k" 7 100 (TokenRecord.mk "v" 1000000 0) (by decide) (by decide)).2.1⟩,
   C7_updateTtl_frame.2.2 (mkStore { maxSize := none, defaultTtl := none, debug := none })
      "k" "v" 0 10 20 (by rfl) (by decide) (by decide)⟩

/-- C1: the timer-callback reclamation path never destroys a record
whose re-read `expiresAt` is still in the future — it only reschedules —
and an insert of 30 days (`2592000` s, exceeding the single-segment
bound of 2^31 - 1 ms) is still present immediately afterwards: `get`
returns the token and `getTtl` reports the full `2592000` seconds, not a
near-zero value. -/
theorem C1_no_premature_destruction :
    (∀ (s : Store) (key : String) (now2 : Int) (r : TokenRecord),
      JsMap.get s.map key = some r → now2 < r.expiresAt →
      JsMap.get (timerCallback s key now2).map key = some r) ∧
    (∀ (s : Store) (k v : String) (now : Int),
      (s.set k v (some 2592000) now).1 = Except.ok () →
      (((s.set k v (some 2592000) now).2).get k now).1 = some v ∧
      (((s.set k v (some 2592000) now).2).getTtl k now).1 = some 2592000) := by
  constructor
  · intro s key now2 r hr hfut
    rw [timerCallback_of_some s key now2 r hr, if_neg (not_le.mpr hfut)]
    have hpos : 0 < r.expiresAt - now2 := by omega
    rw [scheduleExpiry_of_pos _ _ _ _ hpos]
    exact hr
  · intro s k v now hok
    have hc : ¬(JsMap.has s.map k = false ∧ (s.map.length : Int) ≥ s.maxSize) := by
      intro hcc
      rw [setOp_of_capacity s k v (some 2592000) now hcc, fstPair] at hok
      exact absurd hok (by simp)
    have hm1 : JsMap.get (s.set k v (some 2592000) now).2.map k
        = some (TokenRecord.mk v (now + 2592000 * 1000) now) := by
      rw [setOp_of_ok s k v (some 2592000) now hc, sndPair]
      simp only [Option.getD_some]
      have hpos : (0:Int) < (now + 2592000 * 1000) - now := by omega
      rw [scheduleExpiry_of_pos _ _ _ _ hpos]
      dsimp only
      exact JsMap.get_set_self s.map k _
    constructor
    · rw [getOp_of_some _ k now (TokenRecord.mk v (now + 2592000 * 1000) now) hm1]
      dsimp only
      rw [if_neg (by omega : ¬(now + 2592000 * 1000 ≤ now)), fstPair]
    · rw [getTtlOp_of_some _ k now (TokenRecord.mk v (now + 2592000 * 1000) now) hm1]
      dsimp only
      have hmax : max 0 (now + 2592000 * 1000 - now) = 2592000000 := by omega
      rw [hmax, if_neg (by decide : ¬((2592000000 : Int) = 0)), fstPair]
      decide

/-- C1 witness: the callback firing at time 50 on a record expiring at
100 leaves the record in place; and the concrete 30-day insert at time 0
on the empty default store round-trips with full remaining lifetime. -/
theorem C1_no_premature_destruction_witness :
    JsMap.get (timerCallback (Store.mk [("k", TokenRecord.mk "v" 100 0)] [("k", Timeout.mk 0 100)] 1 3600 false) "k" 50).map "k"
      = some (TokenRecord.mk "v" 100 0) ∧
    ((((mkStore { maxSize := none, defaultTtl := none, debug := none }).set "k" "v" (some 2592000) 0).2).getTtl "k" 0).1
      = some 2592000 :=
  ⟨C1_no_premature_destruction.1 (Store.mk [("k", TokenRecord.mk "v" 100 0)] [("k", Timeout.mk 0 100)] 1 3600 false)
      "k" 50 (TokenRecord.mk "v" 100 0) (by decide) (by decide),
   (C1_no_premature_destruction.2 (mkStore { maxSize := none, defaultTtl := none, debug := none })
      "k" "v" 0 (by rfl)).2⟩

/-- C2: each scheduled segment has delay `min(remaining, 2^31 - 1)` ms;
`segCount remaining` is exactly `ceil(remaining / MAX_TIMEOUT_MS)`; and
a record whose pending handle was produced by `scheduleExpiry` at time
`t0` is reclaimed after exactly `segCount (expiresAt - t0)` successive
ideal timer firings — the re-scheduling chain terminates. -/
theorem C2_segment_chain_terminates :
    (∀ (s : Store) (key : String) (e now : Int), 0 < e - now →
      JsMap.get (scheduleExpiry s key e now).timers key
        = some (Timeout.mk now (min (e - now) MAX_TIMEOUT_MS))) ∧
    (∀ R : Int, 0 < R → (segCount R : Int) = ⌈(R : ℚ) / MAX_TIMEOUT_MS⌉) ∧
    (∀ (s : Store) (key : String) (r : TokenRecord) (t0 : Int),
      JsMap.get s.map key = some r →
      JsMap.get s.timers key = some (Timeout.mk t0 (min (r.expiresAt - t0) MAX_TIMEOUT_MS)) →
      0 < r.expiresAt - t0 →
      JsMap.get (iterFire s key (segCount (r.expiresAt - t0))).map key = none ∧
      JsMap.get (iterFire s key (segCount (r.expiresAt - t0))).timers key = none) := by
  refine ⟨?_, segCount_eq_ceil, ?_⟩
  · intro s key e now hpos
    rw [scheduleExpiry_of_pos s key e now hpos]
    exact JsMap.get_set_self s.timers key _
  · intro s key r t0 hmap htimer hR
    exact iterFire_reclaims (segCount (r.expiresAt - t0)) s key r t0 hmap htimer hR rfl

/-- C2 witness: a record with 1000 ms of lifetime scheduled at time 0 is
reclaimed after `segCount (1000 - 0) = 1` ideal firing. -/
theorem C2_segment_chain_terminates_witness :
    JsMap.get (iterFire (Store.mk [("k", TokenRecord.mk "v" 1000 0)] [("k", Timeout.mk 0 (min (1000 - 0) MAX_TIMEOUT_MS))] 1 3600 false) "k" (segCount (1000 - 0))).map "k" = none ∧
    JsMap.get (iterFire (Store.mk [("k", TokenRecord.mk "v" 1000 0)] [("k", Timeout.mk 0 (min (1000 - 0) MAX_TIMEOUT_MS))] 1 3600 false) "k" (segCount (1000 - 0))).timers "k" = none :=
  C2_segment_chain_terminates.2.2
    (Store.mk [("k", TokenRecord.mk "v" 1000 0)] [("k", Timeout.mk 0 (min (1000 - 0) MAX_TIMEOUT_MS))] 1 3600 false)
    "k" (TokenRecord.mk "v" 1000 0) 0 (by decide) (by decide) (by decide)

/-- C3: every read-style operation applied to a key whose record has
`expiresAt <= now` reports the key as absent (`none` / `false` /
excluded from the key list) and removes the record and its timer handle,
independently of any timer firing.  The `keys` part assumes the JS-map
representation invariant that keys in the association list are distinct. -/
theorem C3_reads_destroy_expired :
    ∀ (s : Store) (key : String) (r : TokenRecord) (now : Int),
    JsMap.get s.map key = some r → r.expiresAt ≤ now →
    ((s.get key now).1 = none ∧
      JsMap.get (s.get key now).2.map key = none ∧
      JsMap.get (s.get key now).2.timers key = none) ∧
    ((s.has key now).1 = false ∧
      JsMap.get (s.has key now).2.map key = none ∧
      JsMap.get (s.has key now).2.timers key = none) ∧
    ((s.getMetadata key now).1 = none ∧
      JsMap.get (s.getMetadata key now).2.map key = none ∧
      JsMap.get (s.getMetadata key now).2.timers key = none) ∧
    ((s.getTtl key now).1 = none ∧
      JsMap.get (s.getTtl key now).2.map key = none ∧
      JsMap.get (s.getTtl key now).2.timers key = none) ∧
    ((s.map.map Prod.fst).Nodup →
      key ∉ (s.keys now).1 ∧
      JsMap.get (s.keys now).2.map key = none ∧
      JsMap.get (s.keys now).2.timers key = none) := by
  intro s key r now hr hexp
  refine ⟨?_, ?_, ?_, ?_, ?_⟩
  · rw [getOp_of_some s key now r hr, if_pos hexp]
    exact ⟨fstPair _ _, by rw [sndPair]; exact deleteState_map_self s key,
      by rw [sndPair]; exact deleteState_timers_self s key⟩
  · rw [hasOp_of_some s key now r hr, if_pos hexp]
    exact ⟨fstPair _ _, by rw [sndPair]; exact deleteState_map_self s key,
      by rw [sndPair]; exact deleteState_timers_self s key⟩
  · rw [getMetadataOp_of_some s key now r hr, if_pos hexp]
    exact ⟨fstPair _ _, by rw [sndPair]; exact deleteState_map_self s key,
      by rw [sndPair]; exact deleteState_timers_self s key⟩
  · have hmax : max 0 (r.expiresAt - now) = 0 := by omega
    rw [getTtlOp_of_some s key now r hr, if_pos hmax]
    exact ⟨fstPair _ _, by rw [sndPair]; exact deleteState_map_self s key,
      by rw [sndPair]; exact deleteState_timers_self s key⟩
  · intro hnd
    exact keysLoop_expired_gone now key r hexp s.map s hnd (JsMap.get_mem s.map key r hr)

/-- C3 witness: on a one-entry store whose record expired at 10, read at
time 50: `get` reports `none`, `getTtl` removes the record, and `keys`
excludes the key. -/
theorem C3_reads_destroy_expired_witness :
    ((Store.mk [("k", TokenRecord.mk "v" 10 0)] [("k", Timeout.mk 0 10)] 1 3600 false).get "k" 50).1 = none ∧
    JsMap.get ((Store.mk [("k", TokenRecord.mk "v" 10 0)] [("k", Timeout.mk 0 10)] 1 3600 false).getTtl "k" 50).2.map "k" = none ∧
    "k" ∉ ((Store.mk [("k", TokenRecord.mk "v" 10 0)] [("k", Timeout.mk 0 10)] 1 3600 false).keys 50).1 :=
  ⟨(C3_reads_destroy_expired (Store.mk [("k", TokenRecord.mk "v" 10 0)] [("k", Timeout.mk 0 10)] 1 3600 false)
      "k" (TokenRecord.mk "v" 10 0) 50 (by decide) (by decide)).1.1,
   (C3_reads_destroy_expired (Store.mk [("k", TokenRecord.mk "v" 10 0)] [("k", Timeout.mk 0 10)] 1 3600 false)
      "k" (TokenRecord.mk "v" 10 0) 50 (by decide) (by decide)).2.2.2.1.2.1,
   ((C3_reads_destroy_expired (Store.mk [("k", TokenRecord.mk "v" 10 0)] [("k", Timeout.mk 0 10)] 1 3600 false)
      "k" (TokenRecord.mk "v" 10 0) 50 (by decide) (by decide)).2.2.2.2 (by decide)).1⟩

/-- C8: the domain-equality invariant — every key with a record has a
timer handle and vice versa — is preserved by every state-changing
public operation and by the timer-callback step.  (`getStats` takes no
store apart and returns only counters, so it has no state to preserve.) -/
theorem C8_record_timer_domains_agree :
    ∀ s : Store, domEq s →
    (∀ (k v : String) (t : Option Int) (now : Int), domEq (s.set k v t now).2) ∧
    (∀ (k : String) (now : Int), domEq (s.get k now).2) ∧
    (∀ k : String, domEq (s.delete k).2) ∧
    (∀ (k : String) (now : Int), domEq (s.has k now).2) ∧
    (∀ (k : String) (now : Int), domEq (s.getMetadata k now).2) ∧
    (∀ (k : String) (now : Int), domEq (s.getTtl k now).2) ∧
    (∀ (k : String) (t now : Int), domEq (s.updateTtl k t now).2) ∧
    domEq s.clear ∧
    (∀ now : Int, domEq (s.keys now).2) ∧
    (∀ (k : String) (now2 : Int), domEq (timerCallback s k now2)) := by
  intro s hdom
  refine ⟨?_, ?_, ?_, ?_, ?_, ?_, ?_, ?_, ?_, ?_⟩
  · intro k v t now
    by_cases hc : JsMap.has s.map k = false ∧ (s.map.length : Int) ≥ s.maxSize
    · rw [setOp_of_capacity s k v t now hc, sndPair]
      exact hdom
    · rw [setOp_of_ok s k v t now hc, sndPair]
      refine domEq_scheduleExpiry _ k _ now ?_ ?_
      · intro k' hk'
        dsimp only
        rw [JsMap.get_set_ne s.map k k' _ hk']
        exact hdom k'
      · dsimp only
        exact JsMap.isSome_set_self s.map k _
  · intro k now
    cases hg : JsMap.get s.map k with
    | none =>
      rw [getOp_of_none s k now hg, sndPair]
      exact hdom
    | some r =>
      rw [getOp_of_some s k now r hg]
      by_cases he : r.expiresAt ≤ now
      · rw [if_pos he, sndPair]
        exact domEq_deleteState s k hdom
      · rw [if_neg he, sndPair]
        exact hdom
  · intro k
    exact domEq_deleteState s k hdom
  · intro k now
    cases hg : JsMap.get s.map k with
    | none =>
      rw [hasOp_of_none s k now hg, sndPair]
      exact hdom
    | some r =>
      rw [hasOp_of_some s k now r hg]
      by_cases he : r.expiresAt ≤ now
      · rw [if_pos he, sndPair]
        exact domEq_deleteState s k hdom
      · rw [if_neg he, sndPair]
        exact hdom
  · intro k now
    cases hg : JsMap.get s.map k with
    | none =>
      rw [getMetadataOp_of_none s k now hg, sndPair]
      exact hdom
    | some r =>
      rw [getMetadataOp_of_some s k now r hg]
      by_cases he : r.expiresAt ≤ now
      · rw [if_pos he, sndPair]
        exact domEq_deleteState s k hdom
      · rw [if_neg he, sndPair]
        exact hdom
  · intro k now
    cases hg : JsMap.get s.map k with
    | none =>
      rw [getTtlOp_of_none s k now hg, sndPair]
      exact hdom
    | some r =>
      rw [getTtlOp_of_some s k now r hg]
      by_cases he : max 0 (r.expiresAt - now) = 0
      · rw [if_pos he, sndPair]
        exact domEq_deleteState s k hdom
      · rw [if_neg he, sndPair]
        exact hdom
  · intro k t now
    cases hg : JsMap.get s.map k with
    | none =>
      rw [updateTtlOp_of_none s k t now hg, sndPair]
      exact hdom
    | some r =>
      rw [updateTtlOp_of_some s k t now r hg, sndPair]
      refine domEq_scheduleExpiry _ k _ now ?_ ?_
      · intro k' hk'
        dsimp only
        rw [JsMap.get_set_ne s.map k k' _ hk']
        exact hdom k'
      · dsimp only
        exact JsMap.isSome_set_self s.map k _
  · intro k
    rfl
  · intro now
    exact keysLoop_domEq now s.map s hdom
  · intro k now2
    cases hg : JsMap.get s.map k with
    | none =>
      rw [timerCallback_of_none s k now2 hg]
      intro k'
      by_cases hk : k' = k
      · subst hk
        dsimp only
        rw [hg, JsMap.get_erase_self]
        rfl
      · dsimp only
        rw [JsMap.get_erase_ne s.timers k k' hk]
        exact hdom k'
    | some r =>
      rw [timerCallback_of_some s k now2 r hg]
      by_cases he : r.expiresAt ≤ now2
      · rw [if_pos he]
        exact domEq_deleteState s k hdom
      · rw [if_neg he]
        refine domEq_scheduleExpiry s k _ now2 (fun k' _ => hdom k') ?_
        rw [hg]
        rfl

/-- C8 witness: the invariant holds of the empty store and is carried
through a concrete `set`. -/
theorem C8_record_timer_domains_agree_witness :
    domEq ((mkStore { maxSize := none, defaultTtl := none, debug := none }).set "k" "v" (some 10) 0).2 :=
  (C8_record_timer_domains_agree (mkStore { maxSize := none, defaultTtl := none, debug := none })
    (fun _ => rfl)).1 "k" "v" (some 10) 0

end TokenMemoryTtl
